import Mathlib

/-!
# Control session of the tunnelling relay server (`src/ngrok/server/control.go`)

A shallow embedding of `NewControl`, `Control.managerThread` and
`Control.readThread`.

* Instants and durations are integers counting nanoseconds (instants from the
  Unix epoch), as Go's `time.Time` / `time.Duration` do.
* One iteration of the manager's `select` is one `Event`; the event carries
  what the environment decides in that iteration: the value received from
  `c.stop` or `c.in`, the reading of the clock, the result of `msg.WriteMsg`,
  the result of `newTunnel`.
* The buffered channel `c.out` is part of the state, because the manager both
  sends on it and receives from it.
* Every call to a collaborator (connection, metrics, tunnel, channel send) is
  recorded, in program order, as an `Effect`.
-/

namespace Pgrok

/-! ## Time -/

/-- Go's `time.Second`. -/
def second : Int := 1000000000

/-- The constant `pingTimeoutInterval = 30 * time.Second`. -/
def pingTimeoutInterval : Int := 30 * second

/-- The constant `connReapInterval = 10 * time.Second`. -/
def connReapInterval : Int := 10 * second

/-- Go's `Time.Unix()`: whole seconds since the epoch (rounded down). -/
def unixSeconds (t : Int) : Int := t / second

/-- Go's `time.Unix(sec, 0)`. -/
def timeUnix (sec : Int) : Int := sec * second

/-- Largest `time.Duration` (an `int64` of nanoseconds). -/
def maxDuration : Int := 9223372036854775807

/-- Smallest `time.Duration`. -/
def minDuration : Int := -9223372036854775808

/-- Go's `Time.Sub` on wall-clock instants: the difference, saturated to the
range of `time.Duration`. -/
def timeSub (t u : Int) : Int :=
  if t - u > maxDuration then maxDuration
  else if t - u < minDuration then minDuration
  else t - u

/-- Go's `time.Since(t)`, with `now` the reading of the clock. -/
def timeSince (now t : Int) : Int := timeSub now t

/-! ## Messages, tunnels, effects -/

/-- Payload of a `*msg.RegMsg` (its fields are not looked at by this file). -/
structure RegMsg where
  payload : Nat
deriving DecidableEq, Repr

/-- Dynamic type of a value travelling on `c.in`, `c.out` or `c.stop`. -/
inductive Message where
  | reg (r : RegMsg)
  | ping
  | pong
  | version
  | versionResp (v : String)
  | other (tag : Nat)
deriving DecidableEq, Repr

/-- Identity of a `*Tunnel` returned by `newTunnel`. -/
structure Tunnel where
  id : Nat
deriving DecidableEq, Repr

/-- Result of one call of `msg.WriteMsg`: it returns `nil`, returns an error,
or panics. -/
inductive WriteResult where
  | ok
  | err
  | fault
deriving DecidableEq, Repr

/-- Lines logged through `c.conn.Info`. -/
inductive LogLine where
  | managerFailed
  | lostHeartbeat
  | registering
  | eof
  | readerFailed
deriving DecidableEq, Repr

/-- Calls to collaborators, in program order. -/
inductive Effect where
  | log (l : LogLine)
  | write (m : Message) (w : WriteResult)
  | mark
  | storeLastPing (sec : Int)
  | newTunnel (r : RegMsg) (t : Option Tunnel)
  | sendOut (m : Message)
  | reapStop
  | connClose
  | tunShutdown (t : Tunnel)
  | sendIn (m : Message)
  | sendStop (m : Option Message)
deriving DecidableEq, Repr

/-! ## The session -/

/-- Capacity of `c.out` (`make(chan (interface{}), 1)`). -/
def outCap : Nat := 1

/-- The fields of `Control` that `managerThread` reads and writes: the buffer
of `c.out` (oldest first), `lastPing` (Unix seconds) and `tun`. -/
structure Control where
  out : List Message
  lastPing : Int
  tun : Option Tunnel
deriving DecidableEq, Repr

/-- `NewControl`: empty channels, `lastPing: time.Now().Unix()`, no tunnel. -/
def NewControl (now : Int) : Control :=
  { out := [], lastPing := unixSeconds now, tun := none }

/-- One iteration of the `select` in `managerThread`. -/
inductive Event where
  | out (w : WriteResult)
  | reap (now : Int)
  | stop (m : Option Message) (w : WriteResult)
  | inbound (m : Message) (now : Int) (nt : Option Tunnel)
deriving DecidableEq, Repr

/-- How the body of the loop leaves an iteration: back to the `select`,
`return`, a panic, or blocked for ever in `c.out <- v` (the buffer is full and
the manager itself is the only receiver of `c.out`). `notReady` stands for a
case the `select` cannot take: no iteration happens. -/
inductive Flow where
  | loop
  | ret
  | panicked
  | blocked
  | notReady
deriving DecidableEq, Repr

/-- Result of one iteration. -/
structure Step where
  effects : List Effect
  ctl : Control
  flow : Flow
deriving DecidableEq, Repr

/-- The statement `msg.WriteMsg(c.conn, m)`; the returned error is dropped,
a panic unwinds, otherwise control goes on with `k`. -/
def writeMsg (c : Control) (m : Message) (w : WriteResult) (k : Flow) : Step :=
  { effects := [Effect.write m w], ctl := c,
    flow := if w = WriteResult.fault then Flow.panicked else k }

/-- The statement `c.out <- v`, after the effects `pre` of the same case. -/
def sendOut (pre : List Effect) (c : Control) (v : Message) : Step :=
  if c.out.length < outCap then
    { effects := pre ++ [Effect.sendOut v], ctl := { c with out := c.out ++ [v] },
      flow := Flow.loop }
  else
    { effects := pre, ctl := c, flow := Flow.blocked }

/-- The `switch m := mRaw.(type)` of `case mRaw := <-c.in`. -/
def dispatch (ver : String) (c : Control) (m : Message) (now : Int)
    (nt : Option Tunnel) : Step :=
  match m with
  | Message.reg r =>
    match nt with
    | some t =>
      { effects := [Effect.log LogLine.registering, Effect.newTunnel r (some t)],
        ctl := { c with tun := some t }, flow := Flow.loop }
    | none =>
      { effects := [Effect.log LogLine.registering, Effect.newTunnel r none],
        ctl := c, flow := Flow.panicked }
  | Message.ping =>
    sendOut [Effect.storeLastPing (unixSeconds now)]
      { c with lastPing := unixSeconds now } Message.pong
  | Message.version => sendOut [] c (Message.versionResp ver)
  | _ => { effects := [], ctl := c, flow := Flow.loop }

/-- The body of `for { select { ... } }` for one event. An `out` event while
`c.out` is empty is a case that is not ready: the `select` does not take it. -/
def step (ver : String) (c : Control) : Event → Step
  | Event.out w =>
    match c.out with
    | [] => { effects := [], ctl := c, flow := Flow.notReady }
    | m :: rest => writeMsg { c with out := rest } m w Flow.loop
  | Event.reap now =>
    if timeSince now (timeUnix c.lastPing) > pingTimeoutInterval then
      { effects := [Effect.log LogLine.lostHeartbeat, Effect.mark], ctl := c,
        flow := Flow.ret }
    else
      { effects := [], ctl := c, flow := Flow.loop }
  | Event.stop m w =>
    match m with
    | some v => writeMsg c v w Flow.ret
    | none => { effects := [], ctl := c, flow := Flow.ret }
  | Event.inbound m now nt => dispatch ver c m now nt

/-- The tunnel part of the deferred function: `if c.tun != nil`. -/
def tunShutdown : Option Tunnel → List Effect
  | some t => [Effect.tunShutdown t]
  | none => []

/-- The cleanup sequence: `reap.Stop()`, `c.conn.Close()`, tunnel shutdown. -/
def cleanupSeq (tun : Option Tunnel) : List Effect :=
  [Effect.reapStop, Effect.connClose] ++ tunShutdown tun

/-- The deferred function of `managerThread`; `recovered` tells whether
`recover()` returned a non-nil value. -/
def deferred (c : Control) (recovered : Bool) : List Effect :=
  (if recovered then [Effect.log LogLine.managerFailed] else []) ++ cleanupSeq c.tun

/-- Where a run of `managerThread` stands once the given events are used up:
waiting in the `select`, returned (deferred function done), or blocked for
ever in a send on `c.out`. -/
inductive Status where
  | waiting
  | exited
  | stuck
deriving DecidableEq, Repr

/-- Outcome of a run of `managerThread`: all effects in order, the final
fields, the status, and how many iterations of the loop were started. -/
structure Run where
  trace : List Effect
  final : Control
  status : Status
  handled : Nat
deriving DecidableEq, Repr

/-- The function `managerThread`, run on the events its `select` picks. -/
def managerThread (ver : String) : Control → List Event → Run
  | c, [] => { trace := [], final := c, status := Status.waiting, handled := 0 }
  | c, e :: es =>
    match step ver c e with
    | { effects := fx, ctl := c1, flow := Flow.loop } =>
      let r := managerThread ver c1 es
      { r with trace := fx ++ r.trace, handled := r.handled + 1 }
    | { effects := fx, ctl := c1, flow := Flow.ret } =>
      { trace := fx ++ deferred c1 false, final := c1, status := Status.exited,
        handled := 1 }
    | { effects := fx, ctl := c1, flow := Flow.panicked } =>
      { trace := fx ++ deferred c1 true, final := c1, status := Status.exited,
        handled := 1 }
    | { effects := fx, ctl := c1, flow := Flow.blocked } =>
      { trace := fx, final := c1, status := Status.stuck, handled := 1 }
    | { effects := _, ctl := _, flow := Flow.notReady } => managerThread ver c es

/-! ## The reader -/

/-- Result of one call of `msg.ReadMsg`: a message, `io.EOF`, or another
error. -/
inductive DecodeResult where
  | msg (m : Message)
  | eof
  | err
deriving DecidableEq, Repr

/-- How the loop of `readThread` ends on the given decode results: still
blocked in `ReadMsg`, `return` after `io.EOF`, or `panic(err)`. -/
inductive ReadFlow where
  | reading
  | ret
  | panicked
deriving DecidableEq, Repr

/-- The `for` loop of `readThread`. A send is recorded where its statement
stands: the next `ReadMsg` is only called once `c.in <- msg` is done. -/
def readLoop : List DecodeResult → List Effect × ReadFlow
  | [] => ([], ReadFlow.reading)
  | DecodeResult.msg m :: rest =>
    let r := readLoop rest
    (Effect.sendIn m :: r.1, r.2)
  | DecodeResult.eof :: _ => ([Effect.log LogLine.eof], ReadFlow.ret)
  | DecodeResult.err :: _ => ([], ReadFlow.panicked)

/-- Outcome of a run of `readThread`: the effects in order and whether the
goroutine has ended (normally: the panic is recovered). -/
structure ReadRun where
  trace : List Effect
  ended : Bool
deriving DecidableEq, Repr

/-- The function `readThread` with its deferred function. -/
def readThread (rs : List DecodeResult) : ReadRun :=
  match readLoop rs with
  | (tr, ReadFlow.reading) => { trace := tr, ended := false }
  | (tr, ReadFlow.ret) => { trace := tr ++ [Effect.sendStop none], ended := true }
  | (tr, ReadFlow.panicked) =>
    { trace := tr ++ [Effect.log LogLine.readerFailed, Effect.sendStop none],
      ended := true }

/-! ## Auxiliary definitions for the statements -/

/-- The effects that belong to the cleanup sequence. -/
def isCleanup : Effect → Bool
  | Effect.reapStop => true
  | Effect.connClose => true
  | Effect.tunShutdown _ => true
  | _ => false

/-- The writes to the connection. -/
def isWrite : Effect → Bool
  | Effect.write _ _ => true
  | _ => false

/-- The sends on `c.in` and `c.stop` (the only channels the reader sends on). -/
def isReaderSend : Effect → Bool
  | Effect.sendIn _ => true
  | Effect.sendStop _ => true
  | _ => false

/-- The effects the reader may have: its two sends and log lines. -/
def isReaderEffect : Effect → Bool
  | Effect.sendIn _ => true
  | Effect.sendStop _ => true
  | Effect.log _ => true
  | _ => false

/-- An event that dispatches a `*msg.PingMsg`. -/
def isPing : Event → Bool
  | Event.inbound Message.ping _ _ => true
  | _ => false

/-- A decode result that is not a message. -/
def isFailure : DecodeResult → Bool
  | DecodeResult.msg _ => false
  | _ => true

/-- An event that makes the loop end when the manager waits in state `c`: a
stop signal, a reap tick that finds the heartbeat stale, or an iteration whose
body panics. -/
def endsLoop (ver : String) (c : Control) : Event → Bool
  | Event.stop _ _ => true
  | Event.reap now => decide (timeSince now (timeUnix c.lastPing) > pingTimeoutInterval)
  | e => decide ((step ver c e).flow = Flow.panicked)

/-! ## Lemmas on one iteration -/

theorem sendOut_not_cleanup (pre : List Effect) (c : Control) (v : Message)
    (hpre : ∀ x ∈ pre, isCleanup x = false) :
    ∀ x ∈ (sendOut pre c v).effects, isCleanup x = false := by
  intro x hx
  unfold sendOut at hx
  split at hx
  · simp only [List.mem_append, List.mem_singleton] at hx
    rcases hx with hx | hx
    · exact hpre x hx
    · subst hx; rfl
  · exact hpre x hx

theorem dispatch_not_cleanup (ver : String) (c : Control) (m : Message) (now : Int)
    (nt : Option Tunnel) :
    ∀ x ∈ (dispatch ver c m now nt).effects, isCleanup x = false := by
  cases m with
  | reg r =>
    cases nt <;> (intro x hx; simp [dispatch] at hx; rcases hx with hx | hx <;> (subst hx; rfl))
  | ping =>
    apply sendOut_not_cleanup
    intro x hx
    simp at hx
    subst hx; rfl
  | version =>
    apply sendOut_not_cleanup
    intro x hx
    simp at hx
  | pong => intro x hx; simp [dispatch] at hx
  | versionResp v => intro x hx; simp [dispatch] at hx
  | other t => intro x hx; simp [dispatch] at hx

/-- No iteration of the loop performs a part of the cleanup sequence. -/
theorem step_not_cleanup (ver : String) (c : Control) (e : Event) :
    ∀ x ∈ (step ver c e).effects, isCleanup x = false := by
  cases e with
  | out w =>
    intro x hx
    simp only [step] at hx
    split at hx
    · simp at hx
    · simp [writeMsg] at hx; subst hx; rfl
  | reap now =>
    intro x hx
    simp only [step] at hx
    split at hx
    · simp at hx; rcases hx with hx | hx <;> (subst hx; rfl)
    · simp at hx
  | stop m w =>
    intro x hx
    cases m with
    | none => simp [step] at hx
    | some v => simp [step, writeMsg] at hx; subst hx; rfl
  | inbound m now nt => exact dispatch_not_cleanup ver c m now nt

/-! ## Lemmas on runs -/

/-- A run that is not waiting in the `select` takes no further event. -/
theorem managerThread_append_done (ver : String) (c : Control) (evs more : List Event)
    (h : (managerThread ver c evs).status ≠ Status.waiting) :
    managerThread ver c (evs ++ more) = managerThread ver c evs := by
  induction evs generalizing c with
  | nil => simp [managerThread] at h
  | cons e es ih =>
    rcases hs : step ver c e with ⟨fx, c1, fl⟩
    rw [List.cons_append]
    cases fl
    · simp only [managerThread, hs] at h ⊢
      rw [ih c1 h]
    · simp only [managerThread, hs]
    · simp only [managerThread, hs]
    · simp only [managerThread, hs]
    · simp only [managerThread, hs] at h ⊢
      exact ih c h

/-- A run waiting in the `select` goes on with the next events. -/
theorem managerThread_append_waiting (ver : String) (c : Control) (evs more : List Event)
    (h : (managerThread ver c evs).status = Status.waiting) :
    managerThread ver c (evs ++ more) =
      { trace := (managerThread ver c evs).trace ++
          (managerThread ver (managerThread ver c evs).final more).trace,
        final := (managerThread ver (managerThread ver c evs).final more).final,
        status := (managerThread ver (managerThread ver c evs).final more).status,
        handled := (managerThread ver (managerThread ver c evs).final more).handled +
          (managerThread ver c evs).handled } := by
  induction evs generalizing c with
  | nil => simp [managerThread]
  | cons e es ih =>
    rcases hs : step ver c e with ⟨fx, c1, fl⟩
    rw [List.cons_append]
    cases fl
    · simp only [managerThread, hs] at h ⊢
      rw [ih c1 h]
      simp [Nat.add_assoc]
    · simp [managerThread, hs] at h
    · simp [managerThread, hs] at h
    · simp [managerThread, hs] at h
    · simp only [managerThread, hs] at h ⊢
      exact ih c h

/-- The shape of the trace of a run that has returned. -/
theorem managerThread_exited_trace (ver : String) (c : Control) (evs : List Event)
    (h : (managerThread ver c evs).status = Status.exited) :
    ∃ body, (managerThread ver c evs).trace =
        body ++ cleanupSeq (managerThread ver c evs).final.tun ∧
      ∀ x ∈ body, isCleanup x = false := by
  induction evs generalizing c with
  | nil => simp [managerThread] at h
  | cons e es ih =>
    have hfx := step_not_cleanup ver c e
    rcases hs : step ver c e with ⟨fx, c1, fl⟩
    rw [hs] at hfx
    cases fl
    · simp only [managerThread, hs] at h ⊢
      obtain ⟨body, hb, hn⟩ := ih c1 h
      refine ⟨fx ++ body, ?_, ?_⟩
      · rw [hb, List.append_assoc]
      · intro x hx
        rcases List.mem_append.mp hx with hx | hx
        · exact hfx x hx
        · exact hn x hx
    · simp only [managerThread, hs]
      exact ⟨fx, by simp [deferred], hfx⟩
    · simp only [managerThread, hs]
      refine ⟨fx ++ [Effect.log LogLine.managerFailed], by simp [deferred], ?_⟩
      intro x hx
      rcases List.mem_append.mp hx with hx | hx
      · exact hfx x hx
      · simp at hx; subst hx; rfl
    · simp [managerThread, hs] at h
    · simp only [managerThread, hs] at h ⊢
      exact ih c h

theorem cleanupSeq_filter (tun : Option Tunnel) :
    (cleanupSeq tun).filter isCleanup = cleanupSeq tun := by
  cases tun <;> rfl

theorem endsLoop_flow (ver : String) (c : Control) (e : Event)
    (h : endsLoop ver c e = true) :
    (step ver c e).flow = Flow.ret ∨ (step ver c e).flow = Flow.panicked := by
  cases e with
  | out w => right; simpa [endsLoop] using h
  | inbound m now nt => right; simpa [endsLoop] using h
  | reap now =>
    left
    have h1 : timeSince now (timeUnix c.lastPing) > pingTimeoutInterval := by
      simpa [endsLoop] using h
    simp [step, h1]
  | stop m w =>
    cases m with
    | none => left; rfl
    | some v =>
      by_cases hw : w = WriteResult.fault
      · right; simp [step, writeMsg, hw]
      · left; simp [step, writeMsg, hw]

theorem managerThread_single_exit (ver : String) (c : Control) (e : Event)
    (h : (step ver c e).flow = Flow.ret ∨ (step ver c e).flow = Flow.panicked) :
    (managerThread ver c [e]).status = Status.exited := by
  rcases hs : step ver c e with ⟨fx, c1, fl⟩
  rw [hs] at h
  cases fl
  · simp at h
  · simp [managerThread, hs]
  · simp [managerThread, hs]
  · simp at h
  · simp at h

/-! ## The claims -/

/-- C1: whenever a run of `managerThread` has ended, whatever the events were,
its trace is a body without any cleanup effect followed by the cleanup sequence
(timer stop, connection close, shutdown of the tunnel if one is set), so each
part of the cleanup runs exactly once and in that order, and no event offered
afterwards is handled; and from the `select`, every stop signal, every stale
reap tick and every panicking iteration does end the run. -/
theorem managerThread_cleanup_exactly_once (ver : String) (c : Control)
    (evs : List Event) :
    ((managerThread ver c evs).status = Status.exited →
      (∃ body, (managerThread ver c evs).trace =
          body ++ cleanupSeq (managerThread ver c evs).final.tun ∧
        ∀ x ∈ body, isCleanup x = false) ∧
      (managerThread ver c evs).trace.filter isCleanup =
        cleanupSeq (managerThread ver c evs).final.tun ∧
      ∀ more, managerThread ver c (evs ++ more) = managerThread ver c evs) ∧
    ((managerThread ver c evs).status = Status.waiting →
      ∀ e, endsLoop ver (managerThread ver c evs).final e = true →
        (managerThread ver c (evs ++ [e])).status = Status.exited) := by
  constructor
  · intro h
    obtain ⟨body, hb, hn⟩ := managerThread_exited_trace ver c evs h
    refine ⟨⟨body, hb, hn⟩, ?_, ?_⟩
    · rw [hb, List.filter_append, cleanupSeq_filter]
      have : body.filter isCleanup = [] := by
        rw [List.filter_eq_nil_iff]
        intro x hx
        simp [hn x hx]
      rw [this, List.nil_append]
    · intro more
      exact managerThread_append_done ver c evs more (by rw [h]; decide)
  · intro h e he
    rw [managerThread_append_waiting ver c evs [e] h]
    exact managerThread_single_exit ver _ e (endsLoop_flow ver _ e he)

/-- C1 at a session with a registered tunnel that is stopped, and at one that is reaped by a stale tick. -/
theorem managerThread_cleanup_exactly_once_witness :
    (managerThread "1.0" (NewControl 0)
        [Event.inbound (Message.reg ⟨7⟩) 0 (some ⟨3⟩),
          Event.stop none WriteResult.ok]).trace.filter isCleanup =
      [Effect.reapStop, Effect.connClose, Effect.tunShutdown ⟨3⟩] ∧
    (managerThread "1.0" (NewControl 0)
        ([Event.inbound (Message.reg ⟨7⟩) 0 (some ⟨3⟩)] ++
          [Event.reap 31000000000])).status = Status.exited :=
  ⟨((managerThread_cleanup_exactly_once "1.0" (NewControl 0)
        [Event.inbound (Message.reg ⟨7⟩) 0 (some ⟨3⟩),
          Event.stop none WriteResult.ok]).1 (by decide)).2.1,
    (managerThread_cleanup_exactly_once "1.0" (NewControl 0)
        [Event.inbound (Message.reg ⟨7⟩) 0 (some ⟨3⟩)]).2 (by decide)
      (Event.reap 31000000000) (by decide)⟩

theorem timeSince_gt_iff (now u : Int) :
    timeSince now u > pingTimeoutInterval ↔ now - u > pingTimeoutInterval := by
  unfold timeSince timeSub pingTimeoutInterval second maxDuration minDuration
  split_ifs <;> omega

/-- C2: on a reap tick with stored heartbeat `L = c.lastPing` and clock reading
`now`, the manager logs, marks the lost-heartbeat meter once and ends (running
the cleanup) exactly when `now - L` exceeds 30 seconds; otherwise the tick has
no effect, leaves the fields as they are and the loop goes on with the next
event. Two states with the same `lastPing` decide alike: nothing else, and no
count of ticks, enters the decision. -/
theorem reap_tick_decision (ver : String) (c : Control) (now : Int)
    (rest : List Event) :
    (now - timeUnix c.lastPing > 30 * second →
      step ver c (Event.reap now) =
        { effects := [Effect.log LogLine.lostHeartbeat, Effect.mark], ctl := c,
          flow := Flow.ret } ∧
      managerThread ver c (Event.reap now :: rest) =
        { trace := [Effect.log LogLine.lostHeartbeat, Effect.mark] ++ cleanupSeq c.tun,
          final := c, status := Status.exited, handled := 1 }) ∧
    (¬ (now - timeUnix c.lastPing > 30 * second) →
      step ver c (Event.reap now) = { effects := [], ctl := c, flow := Flow.loop } ∧
      managerThread ver c (Event.reap now :: rest) =
        { managerThread ver c rest with
          handled := (managerThread ver c rest).handled + 1 }) ∧
    (∀ c2 : Control, c2.lastPing = c.lastPing →
      (step ver c2 (Event.reap now)).effects = (step ver c (Event.reap now)).effects ∧
      (step ver c2 (Event.reap now)).flow = (step ver c (Event.reap now)).flow) := by
  have key := timeSince_gt_iff now (timeUnix c.lastPing)
  refine ⟨?_, ?_, ?_⟩
  · intro h
    have h1 : timeSince now (timeUnix c.lastPing) > pingTimeoutInterval := key.mpr h
    have hs : step ver c (Event.reap now) =
        { effects := [Effect.log LogLine.lostHeartbeat, Effect.mark], ctl := c,
          flow := Flow.ret } := by
      simp [step, h1]
    refine ⟨hs, ?_⟩
    simp [managerThread, hs, deferred]
  · intro h
    have h1 : ¬ timeSince now (timeUnix c.lastPing) > pingTimeoutInterval :=
      fun h2 => h (key.mp h2)
    have hs : step ver c (Event.reap now) =
        { effects := [], ctl := c, flow := Flow.loop } := by
      simp only [step, if_neg h1]
    refine ⟨hs, ?_⟩
    simp [managerThread, hs]
  · intro c2 h2
    simp only [step, h2]
    split_ifs <;> simp

/-- C2 at a fresh session: a tick one nanosecond past 30 s ends it, a tick at exactly 30 s does nothing. -/
theorem reap_tick_decision_witness :
    managerThread "1.0" (NewControl 0) (Event.reap 30000000001 :: []) =
        { trace := [Effect.log LogLine.lostHeartbeat, Effect.mark, Effect.reapStop,
            Effect.connClose],
          final := NewControl 0, status := Status.exited, handled := 1 } ∧
    step "1.0" (NewControl 0) (Event.reap 30000000000) =
        { effects := [], ctl := NewControl 0, flow := Flow.loop } :=
  ⟨((reap_tick_decision "1.0" (NewControl 0) 30000000001 []).1 (by decide)).2,
    ((reap_tick_decision "1.0" (NewControl 0) 30000000000 []).2.1 (by decide)).1⟩

/-- C9: a stop signal that carries a message makes the manager write that
message exactly once and then end, whether the write returns nil, returns an
error or panics; a nil stop signal makes it end without any write. In both
cases the events after the signal are not handled and the cleanup runs. -/
theorem stop_signal_ends_loop (ver : String) (c : Control) (v : Message)
    (w : WriteResult) (rest : List Event) :
    (managerThread ver c (Event.stop (some v) w :: rest)).status = Status.exited ∧
    (managerThread ver c (Event.stop (some v) w :: rest)).handled = 1 ∧
    (managerThread ver c (Event.stop (some v) w :: rest)).trace =
      [Effect.write v w] ++ deferred c (decide (w = WriteResult.fault)) ∧
    (managerThread ver c (Event.stop (some v) w :: rest)).trace.filter isWrite =
      [Effect.write v w] ∧
    managerThread ver c (Event.stop none w :: rest) =
      { trace := cleanupSeq c.tun, final := c, status := Status.exited, handled := 1 } ∧
    (managerThread ver c (Event.stop none w :: rest)).trace.filter isWrite = [] := by
  have hn : managerThread ver c (Event.stop none w :: rest) =
      { trace := cleanupSeq c.tun, final := c, status := Status.exited, handled := 1 } := by
    simp [managerThread, step, deferred]
  have hc : ∀ t : Option Tunnel, (cleanupSeq t).filter isWrite = [] := by
    intro t; cases t <;> rfl
  refine ⟨?_, ?_, ?_, ?_, hn, ?_⟩
  · cases w <;> simp [managerThread, step, writeMsg]
  · cases w <;> simp [managerThread, step, writeMsg]
  · cases w <;> simp [managerThread, step, writeMsg]
  · cases w <;>
      simp [managerThread, step, writeMsg, deferred, List.filter_cons, isWrite, hc]
  · rw [hn]; exact hc c.tun

/-- C10: an inbound message that is neither a registration, nor a ping, nor
a version request has no effect at all (no send on `c.out`, no write), leaves
`c.out`, `lastPing` and `tun` as they are, and the loop goes on with the next
event. -/
theorem dispatch_other_is_noop (ver : String) (c : Control) (m : Message) (now : Int)
    (nt : Option Tunnel) (rest : List Event)
    (hreg : ∀ r, m ≠ Message.reg r) (hping : m ≠ Message.ping)
    (hver : m ≠ Message.version) :
    step ver c (Event.inbound m now nt) = { effects := [], ctl := c, flow := Flow.loop } ∧
    managerThread ver c (Event.inbound m now nt :: rest) =
      { managerThread ver c rest with
        handled := (managerThread ver c rest).handled + 1 } := by
  have hs : step ver c (Event.inbound m now nt) =
      { effects := [], ctl := c, flow := Flow.loop } := by
    cases m with
    | reg r => exact absurd rfl (hreg r)
    | ping => exact absurd rfl hping
    | version => exact absurd rfl hver
    | pong => rfl
    | versionResp v => rfl
    | other t => rfl
  refine ⟨hs, ?_⟩
  simp [managerThread, hs]

/-- C10 at a pong and at a version response. -/
theorem dispatch_other_is_noop_witness :
    step "1.0" (NewControl 0) (Event.inbound Message.pong 5 none) =
        { effects := [], ctl := NewControl 0, flow := Flow.loop } ∧
    step "1.0" (NewControl 0) (Event.inbound (Message.versionResp "x") 5 none) =
        { effects := [], ctl := NewControl 0, flow := Flow.loop } :=
  ⟨(dispatch_other_is_noop "1.0" (NewControl 0) Message.pong 5 none []
      (by intro r h; cases h) (by intro h; cases h) (by intro h; cases h)).1,
    (dispatch_other_is_noop "1.0" (NewControl 0) (Message.versionResp "x") 5 none []
      (by intro r h; cases h) (by intro h; cases h) (by intro h; cases h)).1⟩

/-! ### The reader -/

theorem readLoop_messages (ms : List Message) (tail : List DecodeResult) :
    readLoop (ms.map DecodeResult.msg ++ tail) =
      (ms.map Effect.sendIn ++ (readLoop tail).1, (readLoop tail).2) := by
  induction ms with
  | nil => simp
  | cons m ms ih => simp [readLoop, ih]

theorem filter_sendIn (ms : List Message) :
    (ms.map Effect.sendIn).filter isReaderSend = ms.map Effect.sendIn := by
  induction ms with
  | nil => rfl
  | cons m ms ih => simp [List.filter_cons, isReaderSend, ih]

/-- C8: when the decode results are the messages `ms` followed by a failure
`f` (end of stream or another error) and anything after it, `readThread` sends
exactly `ms` on `c.in`, in order, then exactly one nil on `c.stop`, and ends
normally in both cases (the panic of the error case is recovered); its only
other effects are log lines, so it never writes to the connection, stores
`lastPing` or touches a tunnel. While no decode has failed it has sent every
decoded message and has not sent a stop signal. -/
theorem readThread_forwards_then_stops (ms : List Message) (f : DecodeResult)
    (rest : List DecodeResult) (hf : isFailure f = true) :
    (readThread (ms.map DecodeResult.msg ++ f :: rest)).ended = true ∧
    (readThread (ms.map DecodeResult.msg ++ f :: rest)).trace =
      ms.map Effect.sendIn ++
        [Effect.log (if f = DecodeResult.eof then LogLine.eof else LogLine.readerFailed),
          Effect.sendStop none] ∧
    (readThread (ms.map DecodeResult.msg ++ f :: rest)).trace.filter isReaderSend =
      ms.map Effect.sendIn ++ [Effect.sendStop none] ∧
    (∀ x ∈ (readThread (ms.map DecodeResult.msg ++ f :: rest)).trace,
      isReaderEffect x = true) ∧
    readThread (ms.map DecodeResult.msg) =
      { trace := ms.map Effect.sendIn, ended := false } := by
  have htr : readThread (ms.map DecodeResult.msg ++ f :: rest) =
      { trace := ms.map Effect.sendIn ++
          [Effect.log (if f = DecodeResult.eof then LogLine.eof else LogLine.readerFailed),
            Effect.sendStop none],
        ended := true } := by
    cases f with
    | msg m => simp [isFailure] at hf
    | eof => simp [readThread, readLoop_messages, readLoop]
    | err => simp [readThread, readLoop_messages, readLoop]
  refine ⟨by rw [htr], by rw [htr], ?_, ?_, ?_⟩
  · rw [htr]
    simp only [List.filter_append, filter_sendIn]
    rfl
  · rw [htr]
    intro x hx
    simp only [List.mem_append, List.mem_map, List.mem_cons, List.mem_singleton,
      List.not_mem_nil, or_false] at hx
    rcases hx with ⟨m, _, hx⟩ | hx | hx <;> (subst hx; rfl)
  · have h := readLoop_messages ms []
    simp only [List.append_nil, readLoop] at h
    simp [readThread, h]

/-- C8 at two messages followed by an error, and at one message followed by end of stream. -/
theorem readThread_forwards_then_stops_witness :
    (readThread ([Message.ping, Message.version].map DecodeResult.msg ++
        DecodeResult.err :: [DecodeResult.msg Message.ping])).trace =
      [Effect.sendIn Message.ping, Effect.sendIn Message.version,
        Effect.log LogLine.readerFailed, Effect.sendStop none] ∧
    (readThread ([Message.ping].map DecodeResult.msg ++
        DecodeResult.eof :: [])).trace.filter isReaderSend =
      [Effect.sendIn Message.ping, Effect.sendStop none] :=
  ⟨(readThread_forwards_then_stops [Message.ping, Message.version] DecodeResult.err
      [DecodeResult.msg Message.ping] (by decide)).2.1,
    (readThread_forwards_then_stops [Message.ping] DecodeResult.eof [] (by decide)).2.2.1⟩

/-! ### Heartbeat refresh -/

theorem sendOut_lastPing (pre : List Effect) (c : Control) (v : Message) :
    (sendOut pre c v).ctl.lastPing = c.lastPing := by
  unfold sendOut
  split <;> rfl

/-- Only the ping case stores `lastPing`. -/
theorem step_lastPing (ver : String) (c : Control) (e : Event)
    (h : isPing e = false) : (step ver c e).ctl.lastPing = c.lastPing := by
  cases e with
  | out w =>
    simp only [step]
    split <;> rfl
  | reap now =>
    simp only [step]
    split <;> rfl
  | stop m w => cases m <;> rfl
  | inbound m now nt =>
    cases m with
    | reg r => cases nt <;> rfl
    | ping => simp [isPing] at h
    | version => exact sendOut_lastPing _ _ _
    | pong => rfl
    | versionResp v => rfl
    | other t => rfl

theorem managerThread_lastPing (ver : String) (c : Control) (evs : List Event)
    (h : ∀ e ∈ evs, isPing e = false) :
    (managerThread ver c evs).final.lastPing = c.lastPing := by
  induction evs generalizing c with
  | nil => rfl
  | cons e es ih =>
    have h1 := step_lastPing ver c e (h e (List.mem_cons_self e es))
    have h2 : ∀ x ∈ es, isPing x = false := fun x hx => h x (List.mem_cons_of_mem e hx)
    rcases hs : step ver c e with ⟨fx, c1, fl⟩
    rw [hs] at h1
    cases fl
    · simp only [managerThread, hs]
      rw [ih c1 h2]
      exact h1
    · simpa [managerThread, hs] using h1
    · simpa [managerThread, hs] using h1
    · simpa [managerThread, hs] using h1
    · simp only [managerThread, hs]
      exact ih c h2

theorem managerThread_ping_lastPing (ver : String) (c : Control) (T : Int)
    (nt : Option Tunnel) (mid : List Event) (hmid : ∀ e ∈ mid, isPing e = false) :
    (managerThread ver c (Event.inbound Message.ping T nt :: mid)).final.lastPing =
      unixSeconds T := by
  rcases hs : step ver c (Event.inbound Message.ping T nt) with ⟨fx, c1, fl⟩
  have h1 : c1.lastPing = unixSeconds T := by
    have := sendOut_lastPing [Effect.storeLastPing (unixSeconds T)]
      { c with lastPing := unixSeconds T } Message.pong
    simp only [step, dispatch] at hs
    rw [hs] at this
    exact this
  cases fl
  · simp only [managerThread, hs]
    rw [managerThread_lastPing ver c1 mid hmid]
    exact h1
  · simpa [managerThread, hs] using h1
  · simpa [managerThread, hs] using h1
  · simpa [managerThread, hs] using h1
  · exfalso
    simp only [step, dispatch, sendOut] at hs
    split at hs <;> simp at hs

theorem reap_flow_ret_iff (ver : String) (c : Control) (t : Int) :
    (step ver c (Event.reap t)).flow = Flow.ret ↔
      t - timeUnix c.lastPing > pingTimeoutInterval := by
  rw [← timeSince_gt_iff]
  simp only [step]
  split_ifs with h <;> simp [h]

theorem reap_flow_loop_iff (ver : String) (c : Control) (t : Int) :
    (step ver c (Event.reap t)).flow = Flow.loop ↔
      ¬ t - timeUnix c.lastPing > pingTimeoutInterval := by
  rw [← timeSince_gt_iff]
  simp only [step]
  split_ifs with h <;> simp [h]

/-- C3, the claim as written fails: a ping dispatched at T = 10.9 s stores the
reference 10 s, which is before T, and the reap tick at t = 40.5 s, only 29.6 s
after the ping, ends the session. -/
theorem ping_then_reap_counterexample :
    timeUnix (managerThread "1.0" (NewControl 0)
        [Event.inbound Message.ping 10900000000 none]).final.lastPing < 10900000000 ∧
    40500000000 - 10900000000 < pingTimeoutInterval ∧
    managerThread "1.0" (NewControl 0)
        [Event.inbound Message.ping 10900000000 none, Event.reap 40500000000] =
      { trace := [Effect.storeLastPing 10, Effect.sendOut Message.pong,
          Effect.log LogLine.lostHeartbeat, Effect.mark, Effect.reapStop,
          Effect.connClose],
        final := { out := [Message.pong], lastPing := 10, tun := none },
        status := Status.exited, handled := 2 } := by
  decide

/-- C3, amended: a ping dispatched at time T stores T cut down to whole
seconds, a reference that is at most T and less than one second before T.
With no other ping dispatched before the reap tick at time t, the tick ends
the session exactly when t minus that reference exceeds 30 seconds: it does
whenever t - T exceeds 30 seconds, and it does not whenever t - T is at most
29 seconds. -/
theorem ping_then_reap (ver : String) (c : Control) (T t : Int) (nt : Option Tunnel)
    (mid : List Event) (hmid : ∀ e ∈ mid, isPing e = false) :
    (managerThread ver c (Event.inbound Message.ping T nt :: mid)).final.lastPing =
      unixSeconds T ∧
    timeUnix (unixSeconds T) ≤ T ∧
    T < timeUnix (unixSeconds T) + second ∧
    ((step ver (managerThread ver c (Event.inbound Message.ping T nt :: mid)).final
        (Event.reap t)).flow = Flow.ret ↔
      t - timeUnix (unixSeconds T) > 30 * second) ∧
    (t - T > 30 * second →
      (step ver (managerThread ver c (Event.inbound Message.ping T nt :: mid)).final
        (Event.reap t)).flow = Flow.ret) ∧
    (t - T ≤ 29 * second →
      (step ver (managerThread ver c (Event.inbound Message.ping T nt :: mid)).final
        (Event.reap t)).flow = Flow.loop) := by
  have hl := managerThread_ping_lastPing ver c T nt mid hmid
  have hlo : timeUnix (unixSeconds T) ≤ T := by
    unfold timeUnix unixSeconds second; omega
  have hhi : T < timeUnix (unixSeconds T) + second := by
    unfold timeUnix unixSeconds second; omega
  refine ⟨hl, hlo, hhi, ?_, ?_, ?_⟩
  · rw [reap_flow_ret_iff, hl]; rfl
  · intro h
    rw [reap_flow_ret_iff, hl]
    unfold pingTimeoutInterval
    unfold second at h hhi ⊢
    omega
  · intro h
    rw [reap_flow_loop_iff, hl]
    unfold pingTimeoutInterval
    unfold second at h hhi ⊢
    omega

/-- C3 (amended) at a ping at 10.9 s: a tick 29 s later keeps the session, a tick just over 30 s later ends it. -/
theorem ping_then_reap_witness :
    (step "1.0" (managerThread "1.0" (NewControl 0)
        (Event.inbound Message.ping 10900000000 none ::
          [Event.out WriteResult.ok])).final (Event.reap 39900000000)).flow = Flow.loop ∧
    (step "1.0" (managerThread "1.0" (NewControl 0)
        (Event.inbound Message.ping 10900000000 none ::
          [Event.out WriteResult.ok])).final (Event.reap 40900000001)).flow = Flow.ret :=
  ⟨(ping_then_reap "1.0" (NewControl 0) 10900000000 39900000000 none
      [Event.out WriteResult.ok] (by decide)).2.2.2.2.2 (by decide),
    (ping_then_reap "1.0" (NewControl 0) 10900000000 40900000001 none
      [Event.out WriteResult.ok] (by decide)).2.2.2.2.1 (by decide)⟩

/-! ### Dispatch of pings and version requests -/

/-- C4, the claim as written fails: with a pong still in `c.out`, a ping
dispatched at 10.9 s stores 10 (whole seconds, not the reading of the clock)
and then blocks in `c.out <- &msg.PongMsg{}`: no pong is put on the queue,
which still holds the one message it held before. -/
theorem dispatch_ping_counterexample :
    step "1.0" { out := [Message.pong], lastPing := 0, tun := none }
        (Event.inbound Message.ping 10900000000 none) =
      { effects := [Effect.storeLastPing 10],
        ctl := { out := [Message.pong], lastPing := 10, tun := none },
        flow := Flow.blocked } ∧
    timeUnix 10 ≠ 10900000000 := by
  decide

/-- C4, amended: while `c.out` has room, dispatching a ping stores the
current Unix time in whole seconds in `lastPing` and puts exactly one pong on
`c.out`; dispatching a version request puts exactly one version response
carrying the server's version string on `c.out` and changes neither `lastPing`
nor `tun`. Neither calls `newTunnel`, and after both the loop goes on. -/
theorem dispatch_ping_version (ver : String) (c : Control) (now : Int)
    (nt : Option Tunnel) (hroom : c.out.length < outCap) :
    step ver c (Event.inbound Message.ping now nt) =
      { effects := [Effect.storeLastPing (unixSeconds now), Effect.sendOut Message.pong],
        ctl := { out := c.out ++ [Message.pong], lastPing := unixSeconds now,
                 tun := c.tun },
        flow := Flow.loop } ∧
    step ver c (Event.inbound Message.version now nt) =
      { effects := [Effect.sendOut (Message.versionResp ver)],
        ctl := { out := c.out ++ [Message.versionResp ver], lastPing := c.lastPing,
                 tun := c.tun },
        flow := Flow.loop } := by
  constructor
  · simp [step, dispatch, sendOut, hroom]
  · simp [step, dispatch, sendOut, hroom]

/-- C4 (amended) at a fresh session, whose outbound queue is empty. -/
theorem dispatch_ping_version_witness :
    step "1.0" (NewControl 0) (Event.inbound Message.ping 10900000000 none) =
      { effects := [Effect.storeLastPing 10, Effect.sendOut Message.pong],
        ctl := { out := [Message.pong], lastPing := 10, tun := none },
        flow := Flow.loop } ∧
    step "1.0" (NewControl 0) (Event.inbound Message.version 10900000000 none) =
      { effects := [Effect.sendOut (Message.versionResp "1.0")],
        ctl := { out := [Message.versionResp "1.0"], lastPing := 0, tun := none },
        flow := Flow.loop } :=
  dispatch_ping_version "1.0" (NewControl 0) 10900000000 none (by decide)

/-- A reply cannot be put on a full `c.out`: the manager blocks in the send. -/
theorem dispatch_blocks_when_full (ver : String) (c : Control) (now : Int)
    (nt : Option Tunnel) (hfull : outCap ≤ c.out.length) :
    (step ver c (Event.inbound Message.ping now nt)).flow = Flow.blocked ∧
    (step ver c (Event.inbound Message.version now nt)).flow = Flow.blocked := by
  have h : ¬ c.out.length < outCap := Nat.not_lt.mpr hfull
  constructor <;> simp [step, dispatch, sendOut, h]

/-! ### Tunnels -/

/-- C5, the code at two registrations followed by a nil stop signal: both
tunnels are constructed, the second registration overwrites `c.tun`, and the
deferred function shuts down the second tunnel only. -/
theorem second_registration_leaks_tunnel :
    managerThread "1.0" (NewControl 0)
        [Event.inbound (Message.reg ⟨1⟩) 0 (some ⟨1⟩),
          Event.inbound (Message.reg ⟨2⟩) 0 (some ⟨2⟩),
          Event.stop none WriteResult.ok] =
      { trace := [Effect.log LogLine.registering, Effect.newTunnel ⟨1⟩ (some ⟨1⟩),
          Effect.log LogLine.registering, Effect.newTunnel ⟨2⟩ (some ⟨2⟩),
          Effect.reapStop, Effect.connClose, Effect.tunShutdown ⟨2⟩],
        final := { out := [], lastPing := 0, tun := some ⟨2⟩ },
        status := Status.exited, handled := 3 } ∧
    Effect.tunShutdown ⟨1⟩ ∉
      (managerThread "1.0" (NewControl 0)
        [Event.inbound (Message.reg ⟨1⟩) 0 (some ⟨1⟩),
          Event.inbound (Message.reg ⟨2⟩) 0 (some ⟨2⟩),
          Event.stop none WriteResult.ok]).trace := by
  decide

/-! ### Write errors -/

/-- C6, the claim as written fails: the write of the pong returns an error,
and the manager stays in its loop: it handles the next ping and is back in the
`select`, and no part of the cleanup has run. -/
theorem write_error_counterexample :
    managerThread "1.0" (NewControl 0)
        [Event.inbound Message.ping 0 none, Event.out WriteResult.err,
          Event.inbound Message.ping 1000000000 none] =
      { trace := [Effect.storeLastPing 0, Effect.sendOut Message.pong,
          Effect.write Message.pong WriteResult.err,
          Effect.storeLastPing 1, Effect.sendOut Message.pong],
        final := { out := [Message.pong], lastPing := 1, tun := none },
        status := Status.waiting, handled := 3 } := by
  decide

/-- C6, amended: an error returned by the write of an outbound message is
dropped: the message is taken off `c.out`, nothing else changes, no cleanup
runs and the loop goes on with the next events. Only a panic raised by the
write makes the manager leave the loop, log the failure and run the cleanup
sequence. -/
theorem write_error_is_dropped (ver : String) (c : Control) (m : Message)
    (q : List Message) (rest : List Event) (hq : c.out = m :: q) :
    step ver c (Event.out WriteResult.err) =
      { effects := [Effect.write m WriteResult.err],
        ctl := { out := q, lastPing := c.lastPing, tun := c.tun }, flow := Flow.loop } ∧
    managerThread ver c (Event.out WriteResult.err :: rest) =
      { trace := Effect.write m WriteResult.err ::
          (managerThread ver { out := q, lastPing := c.lastPing, tun := c.tun } rest).trace,
        final :=
          (managerThread ver { out := q, lastPing := c.lastPing, tun := c.tun } rest).final,
        status :=
          (managerThread ver { out := q, lastPing := c.lastPing, tun := c.tun } rest).status,
        handled :=
          (managerThread ver { out := q, lastPing := c.lastPing, tun := c.tun }
            rest).handled + 1 } ∧
    managerThread ver c (Event.out WriteResult.fault :: rest) =
      { trace := [Effect.write m WriteResult.fault, Effect.log LogLine.managerFailed] ++
          cleanupSeq c.tun,
        final := { out := q, lastPing := c.lastPing, tun := c.tun },
        status := Status.exited, handled := 1 } := by
  have hs : ∀ w, step ver c (Event.out w) =
      writeMsg { out := q, lastPing := c.lastPing, tun := c.tun } m w Flow.loop := by
    intro w
    simp only [step, hq]
  refine ⟨?_, ?_, ?_⟩
  · rw [hs]; simp [writeMsg]
  · have h1 : step ver c (Event.out WriteResult.err) =
        { effects := [Effect.write m WriteResult.err],
          ctl := { out := q, lastPing := c.lastPing, tun := c.tun },
          flow := Flow.loop } := by
      rw [hs]; simp [writeMsg]
    simp [managerThread, h1]
  · have h1 : step ver c (Event.out WriteResult.fault) =
        { effects := [Effect.write m WriteResult.fault],
          ctl := { out := q, lastPing := c.lastPing, tun := c.tun },
          flow := Flow.panicked } := by
      rw [hs]; simp [writeMsg]
    simp [managerThread, h1, deferred]

/-- C6 (amended) at a session with one pong waiting in the outbound queue. -/
theorem write_error_is_dropped_witness :
    step "1.0" { out := [Message.pong], lastPing := 0, tun := none }
        (Event.out WriteResult.err) =
      { effects := [Effect.write Message.pong WriteResult.err],
        ctl := { out := [], lastPing := 0, tun := none }, flow := Flow.loop } :=
  (write_error_is_dropped "1.0" { out := [Message.pong], lastPing := 0, tun := none }
    Message.pong [] [] rfl).1

/-! ### The outbound queue -/

/-- C7, the code at two pings picked from `c.in` before the first pong is
written: the first pong fills `c.out`, the second ping stores `lastPing` and
then blocks in `c.out <- &msg.PongMsg{}`, outside the `select`; whatever
events are ready afterwards, the manager handles none of them and never runs
its cleanup. -/
theorem second_ping_blocks_manager :
    managerThread "1.0" (NewControl 0)
        [Event.inbound Message.ping 0 none, Event.inbound Message.ping 1000000000 none] =
      { trace := [Effect.storeLastPing 0, Effect.sendOut Message.pong,
          Effect.storeLastPing 1],
        final := { out := [Message.pong], lastPing := 1, tun := none },
        status := Status.stuck, handled := 2 } ∧
    ∀ more : List Event,
      managerThread "1.0" (NewControl 0)
          ([Event.inbound Message.ping 0 none,
            Event.inbound Message.ping 1000000000 none] ++ more) =
        managerThread "1.0" (NewControl 0)
          [Event.inbound Message.ping 0 none, Event.inbound Message.ping 1000000000 none] :=
  ⟨by decide, fun more => managerThread_append_done "1.0" (NewControl 0) _ more (by decide)⟩

end Pgrok
